import Mathlib

/-!
Shallow embedding of the KPWeb line-parsing and aggregation engine
(`src/lib/normalize.ts`, `src/lib/parser.ts`, `src/lib/compute.ts`,
`src/lib/week.ts`, and the window filter of `src/pages/WizardPage.tsx`)
together with theorems settling the frozen claims about it.

Modelling conventions:
* JS strings are Lean `String`s; character-level operations mirror the JS
  regular expressions on the ASCII fragment the data lives in
  (`\s` is modelled by the ASCII whitespace characters, `toLowerCase` by
  `Char.toLower`).
* JS `number` is modelled by `Int` where the code only ever holds integers
  and by `ℚ` for the point multiplier; `0.5` and `2` are exactly
  representable as binary floats, so rational arithmetic is exact here.
  Because `Rat.mul`/`Rat.add` are `@[irreducible]`, executable wrappers
  `ratMul`/`ratAdd` built on `mkRat` are used, with bridge lemmas to `*`/`+`.
* JS `Map` is modelled by an association list where `set` appends and `get`
  returns the value of the last matching key (later writes win).
* The JS `RegExp` engine and the luxon timestamp parser are external
  collaborators; they are abstracted into an explicit environment `JsEnv`
  passed to `parseLine`, exactly at the call sites where the source invokes
  them.  All claims settled here are independent of the concrete matcher.
-/

namespace KPWeb

/-! ### Character helpers (the JS regex character classes used by the source) -/

/-- The characters matched by the JS `\s` class, restricted to ASCII. -/
def jsIsSpace (c : Char) : Bool :=
  c = ' ' || c = '\t' || c = '\n' || c = '\r' || c = '\x0b' || c = '\x0c'

/-- The class `[\s.,!?;:'"()[\]{}<>]` stripped from the ends by `normalizeKey`. -/
def isKeyStripChar (c : Char) : Bool :=
  jsIsSpace c || c = '.' || c = ',' || c = '!' || c = '?' || c = ';' || c = ':' ||
    c = '\x27' || c = '"' || c = '(' || c = ')' || c = '[' || c = ']' ||
    c = '\x7b' || c = '\x7d' || c = '<' || c = '>'

def isDigitChar (c : Char) : Bool :=
  '0' ≤ c && c ≤ '9'

/-- The `[a-z0-9]` class used when tokenizing modifier contents. -/
def isLowerAlnum (c : Char) : Bool :=
  ('a' ≤ c && c ≤ 'z') || isDigitChar c

/-- JS `String.prototype.trim` on the character list. -/
def trimChars (l : List Char) : List Char :=
  ((l.dropWhile jsIsSpace).reverse.dropWhile jsIsSpace).reverse

/-- JS `.replace(/\s+/g, " ")`: collapse every whitespace run to one space.
The boolean records whether the previous character was part of a run. -/
def collapseSpacesAux : Bool → List Char → List Char
  | _, [] => []
  | prevSpace, c :: rest =>
    if jsIsSpace c then
      if prevSpace then collapseSpacesAux true rest
      else ' ' :: collapseSpacesAux true rest
    else c :: collapseSpacesAux false rest

def collapseSpaces (l : List Char) : List Char :=
  collapseSpacesAux false l

/-- Strip a leading and a trailing run of `isKeyStripChar` characters
(the `^[...]+|[...]+$` regex of `normalizeKey`). -/
def stripKeyEnds (l : List Char) : List Char :=
  ((l.dropWhile isKeyStripChar).reverse.dropWhile isKeyStripChar).reverse

def toLowerChars (l : List Char) : List Char :=
  l.map Char.toLower

/-- JS `s.toLowerCase()` (ASCII fragment). -/
def jsToLower (s : String) : String :=
  String.mk (toLowerChars s.data)

/-! ### `normalize.ts` -/

/-- Source `normalizeKey`: trim, lowercase, strip matching leading/trailing
punctuation/bracket characters, collapse internal whitespace runs. -/
def normalizeKey (input : String) : String :=
  String.mk (collapseSpaces (stripKeyEnds (toLowerChars (trimChars input.data))))

/-- Source `normalizeBossKey`: trim, lowercase, collapse whitespace; no punctuation
stripping. -/
def normalizeBossKey (input : String) : String :=
  String.mk (collapseSpaces (toLowerChars (trimChars input.data)))

/-- Split a character list into maximal runs of non-separator characters,
dropping empty fragments (the JS `split(/.../)`+`filter(Boolean)` pattern). -/
def splitRunsAux (sep : Char → Bool) (acc : List Char) : List Char → List (List Char)
  | [] => if acc.isEmpty then [] else [acc.reverse]
  | c :: rest =>
    if sep c then
      if acc.isEmpty then splitRunsAux sep [] rest
      else acc.reverse :: splitRunsAux sep [] rest
    else splitRunsAux sep (c :: acc) rest

def splitRuns (sep : Char → Bool) (l : List Char) : List (List Char) :=
  splitRunsAux sep [] l

/-- Source `splitWords`: split on whitespace runs, drop empty fragments. -/
def splitWords (input : String) : List String :=
  (splitRuns jsIsSpace input.data).map String.mk

/-- Source `dedupePreserveOrder`: drop later duplicates by `normalizeKey`,
keeping first-seen order. -/
def dedupePreserveOrderAux (seen : List String) : List String → List String
  | [] => []
  | v :: rest =>
    let key := normalizeKey v
    if seen.contains key then dedupePreserveOrderAux seen rest
    else v :: dedupePreserveOrderAux (key :: seen) rest

def dedupePreserveOrder (values : List String) : List String :=
  dedupePreserveOrderAux [] values

/-! ### JS `Map` model: insertion list, last write wins -/

/-- JS `Map.prototype.get` for a map built by successive `set` calls appended
to the right: the value of the LAST pair whose key matches. -/
def mapGet {α : Type} : List (String × α) → String → Option α
  | [], _ => none
  | (k, v) :: rest, key =>
    match mapGet rest key with
    | some r => some r
    | none => if k = key then some v else none

def mapHas {α : Type} (m : List (String × α)) (key : String) : Bool :=
  (mapGet m key).isSome

/-! ### Exact rational arithmetic usable by the kernel

`Rat.mul` and `Rat.add` are `@[irreducible]`, so the embedding uses `mkRat`
based wrappers; `ratMul_eq_mul`/`ratAdd_eq_add` below bridge to `*`/`+`. -/

def ratMul (a b : ℚ) : ℚ :=
  mkRat (a.num * b.num) (a.den * b.den)

def ratAdd (a b : ℚ) : ℚ :=
  mkRat (a.num * (b.den : Int) + b.num * (a.den : Int)) (a.den * b.den)

theorem ratMul_eq_mul (a b : ℚ) : ratMul a b = a * b := by
  rw [ratMul, Rat.mkRat_eq_div]
  conv_rhs => rw [← Rat.num_div_den a, ← Rat.num_div_den b]
  push_cast
  ring_nf

theorem ratAdd_eq_add (a b : ℚ) : ratAdd a b = a + b := by
  have ha : ((a.den : ℚ)) ≠ 0 := Nat.cast_ne_zero.mpr a.den_nz
  have hb : ((b.den : ℚ)) ≠ 0 := Nat.cast_ne_zero.mpr b.den_nz
  rw [ratAdd, Rat.mkRat_eq_div]
  conv_rhs => rw [← Rat.num_div_den a, ← Rat.num_div_den b]
  rw [div_add_div _ _ ha hb]
  push_cast
  ring_nf

/-! ### Data model (`src/types.ts`) -/

inductive ParseIssueType where
  | UnsupportedFormat
  | UnknownBoss
  | UnknownName
  | MultipleNotTokens
  | InvalidTimestamp
  | UnknownModifier
deriving DecidableEq, Repr

structure ParseIssue where
  type : ParseIssueType
  token : Option String := none
  message : String
deriving DecidableEq, Repr

structure ParsedLine where
  lineNumber : Nat
  rawText : String
  timestampRaw : Option String := none
  timestampUtcMillis : Option Int := none
  author : Option String := none
  bossRaw : Option String := none
  bossCanonical : Option String := none
  pointsBonus : Int
  pointsMultiplier : ℚ
  addNames : List String
  subtractNames : List String
  issues : List ParseIssue
deriving DecidableEq, Repr

structure BossConfig where
  boss : String
  points : Int
deriving DecidableEq, Repr

structure AliasRow where
  «alias» : String
  canonical : String
deriving DecidableEq, Repr

/-! ### Lookup builder (`createParserLookup`) -/

structure ParserLookup where
  usersByKey : List (String × String)
  bossesByKey : List (String × BossConfig)
  nameAliasByKey : List (String × String)
  bossAliasByKey : List (String × String)
deriving Repr

def createParserLookup (canonicalUsers : List String) (bosses : List BossConfig)
    (nameAliases : List AliasRow) (bossAliases : List AliasRow) : ParserLookup where
  usersByKey := canonicalUsers.map (fun user => (normalizeKey user, user))
  bossesByKey := bosses.map (fun boss => (normalizeBossKey boss.boss, boss))
  nameAliasByKey := nameAliases.map (fun row => (normalizeKey row.«alias», row.canonical))
  bossAliasByKey := bossAliases.map (fun row => (normalizeBossKey row.«alias», row.canonical))

/-! ### Token resolution (`resolveName`, `resolveBoss`) -/

structure NameResolution where
  canonical : Option String := none
  issue : Option ParseIssue := none
deriving DecidableEq, Repr

def resolveName (token : String) (lookup : ParserLookup) : NameResolution :=
  let key := normalizeKey token
  if key = "" then
    { issue := some { type := .UnknownName, token := some token, message := "Empty name token" } }
  else
    -- JS `lookup.nameAliasByKey.get(key) || token`: an empty alias value is
    -- falsy and also falls back to the raw token.
    let aliasResolved :=
      match mapGet lookup.nameAliasByKey key with
      | some v => if v = "" then token else v
      | none => token
    match mapGet lookup.usersByKey (normalizeKey aliasResolved) with
    | some canonical => { canonical := some canonical }
    | none =>
      { issue := some { type := .UnknownName, token := some token,
                        message := "Unknown name: " ++ token } }

structure BossResolution where
  canonical : Option String := none
  points : Option Int := none
  issue : Option ParseIssue := none
deriving DecidableEq, Repr

def resolveBoss (token : String) (lookup : ParserLookup) : BossResolution :=
  let key := normalizeBossKey token
  if key = "" then
    { issue := some { type := .UnknownBoss, token := some token, message := "Empty boss token" } }
  else
    let aliasResolved :=
      match mapGet lookup.bossAliasByKey key with
      | some v => if v = "" then token else v
      | none => token
    match mapGet lookup.bossesByKey (normalizeBossKey aliasResolved) with
    | some boss => { canonical := some boss.boss, points := some boss.points }
    | none =>
      { issue := some { type := .UnknownBoss, token := some token,
                        message := "Unknown boss token: " ++ token } }

/-! ### Boss-likeness and parenthetical stripping -/

/-- The regex `^\d+(?:\.\d+)?$` on the normalized key. -/
def isNumericKeyChars (l : List Char) : Bool :=
  let digits := l.takeWhile isDigitChar
  let rest := l.dropWhile isDigitChar
  !digits.isEmpty &&
    (rest.isEmpty ||
      (rest.headD ' ' = '.' && !rest.tail.isEmpty && rest.tail.all isDigitChar))

def looksBossLikeToken (token : String) : Bool :=
  let key := normalizeBossKey token
  if key = "" then false
  else if key.data.headD ' ' = '/' then true
  else isNumericKeyChars key.data

/-- One pass of the global regex `\([^)]*\)`, as a state machine over the
characters: outside a group characters are kept; a `(` opens a buffered
group; the first `)` closes it and emits its content (the `[^)]*` class
admits `(` inside); a group still open at the end of the input was never
matched by the regex, so its text is restored verbatim.  Returns the kept
characters and the group contents in order (used for `stripBossToken` and
the modifier `matchAll`). -/
def parenScanAux : Option (List Char) → List Char → List Char × List (List Char)
  | none, [] => ([], [])
  | some buffer, [] => ('(' :: buffer.reverse, [])
  | none, c :: rest =>
    if c = '(' then parenScanAux (some []) rest
    else
      let result := parenScanAux none rest
      (c :: result.1, result.2)
  | some buffer, c :: rest =>
    if c = ')' then
      let result := parenScanAux none rest
      (result.1, buffer.reverse :: result.2)
    else parenScanAux (some (c :: buffer)) rest

def parenScan (l : List Char) : List Char × List (List Char) :=
  parenScanAux none l

/-- Source `stripBossToken`: remove all `(...)` groups, then trim. -/
def stripBossToken (token : String) : String :=
  String.mk (trimChars (parenScan token.data).1)

/-- The contents captured by `matchAll(/\(([^)]*)\)/g)` in order. -/
def parentheticalContents (token : String) : List String :=
  (parenScan token.data).2.map String.mk

/-! ### Boss-token modifiers (`MODIFIER_SYNONYMS`, `applyBossModifiers`) -/

inductive ModifierKind where
  | bonus5
  | half
  | double
deriving DecidableEq, Repr

/-- The fixed `MODIFIER_SYNONYMS` table. -/
def modifierSynonym (token : String) : Option ModifierKind :=
  if token = "brucy" then some .bonus5
  else if token = "brucybonus" then some .bonus5
  else if token = "fail" then some .half
  else if token = "comp" then some .half
  else if token = "double" then some .double
  else if token = "doublepoints" then some .double
  else none

/-- One match content, trimmed, lowercased and split on `[^a-z0-9]+`. -/
def modifierTokensOfContent (content : String) : List String :=
  (splitRuns (fun c => !isLowerAlnum c)
      (toLowerChars (trimChars content.data))).map String.mk

/-- The loop body over modifier tokens: collect recognized kinds (deduplicated
by kind, as the JS `Set` does) and `UnknownModifier` issues in order. -/
def collectModifiers (tokens : List String) : List ModifierKind × List ParseIssue :=
  tokens.foldl
    (fun acc token =>
      match modifierSynonym token with
      | none =>
        (acc.1, acc.2 ++ [{ type := .UnknownModifier, token := some token,
                            message := "Unknown boss modifier: " ++ token }])
      | some kind =>
        (if acc.1.contains kind then acc.1 else acc.1 ++ [kind], acc.2))
    ([], [])

/-- Source `applyBossModifiers`: extract parenthetical groups from the raw boss
token, apply recognized modifiers to the line's bonus/multiplier, record
`UnknownModifier` issues, and return the stripped boss token. -/
def applyBossModifiers (rawBossToken : String) (parsed : ParsedLine) :
    ParsedLine × String :=
  let contents := parentheticalContents rawBossToken
  let bossToken := stripBossToken rawBossToken
  if contents.isEmpty then (parsed, bossToken)
  else
    let collected := collectModifiers (contents.flatMap modifierTokensOfContent)
    let mods := collected.1
    let parsed := { parsed with issues := parsed.issues ++ collected.2 }
    let parsed :=
      if mods.contains .bonus5 then
        { parsed with pointsBonus := parsed.pointsBonus + 5 }
      else parsed
    let parsed :=
      if mods.contains .half then
        { parsed with pointsMultiplier := ratMul parsed.pointsMultiplier (mkRat 1 2) }
      else parsed
    let parsed :=
      if mods.contains .double then
        { parsed with pointsMultiplier := ratMul parsed.pointsMultiplier (mkRat 2 1) }
      else parsed
    (parsed, bossToken)

/-! ### Name tokens and the `not` rule (`applyNamesWithNotRule`) -/

/-- The two identical resolution loops of the source: resolve each token,
collecting resolved canonical names and `UnknownName` issues in order. -/
def resolveNameTokens (tokens : List String) (lookup : ParserLookup) :
    List String × List ParseIssue :=
  tokens.foldl
    (fun acc token =>
      let resolved := resolveName token lookup
      match resolved.issue with
      | some issue => (acc.1, acc.2 ++ [issue])
      | none => (acc.1 ++ [resolved.canonical.getD ""], acc.2))
    ([], [])

structure NamesSplit where
  addNames : List String
  subtractNames : List String
  issues : List ParseIssue
deriving DecidableEq, Repr

/-- Source `applyNamesWithNotRule`: locate case-insensitive `not` tokens, split into
add/subtract candidates, resolve, deduplicate and remove add/subtract
overlap from both sides.  Issues are returned in source push order
(`MultipleNotTokens` first, then add-loop issues, then subtract-loop issues). -/
def applyNamesWithNotRule (nameTokens : List String) (lookup : ParserLookup) :
    NamesSplit :=
  let notIndexes :=
    (nameTokens.enum.filter (fun entry => jsToLower entry.2 = "not")).map (fun entry => entry.1)
  let multipleIssues : List ParseIssue :=
    if notIndexes.length > 1 then
      [{ type := .MultipleNotTokens,
         message := "More than one NOT token found in a single line." }]
    else []
  -- the source sentinel `splitAt = -1` is the `none` case here
  let splitIdx : Option Nat :=
    if notIndexes.length = 1 then notIndexes.head? else none
  let addTokens := match splitIdx with
    | none => nameTokens
    | some i => nameTokens.take i
  let subtractTokens := match splitIdx with
    | none => []
    | some i => nameTokens.drop (i + 1)
  let addResolved := resolveNameTokens addTokens lookup
  let subtractResolved := resolveNameTokens subtractTokens lookup
  let dedupedAdd := dedupePreserveOrder addResolved.1
  let dedupedSubtract := dedupePreserveOrder subtractResolved.1
  let addKeys := dedupedAdd.map (fun name => normalizeKey name)
  let subtractKeys := dedupedSubtract.map (fun name => normalizeKey name)
  let overlap := addKeys.filter (fun key => subtractKeys.contains key)
  { addNames := dedupedAdd.filter (fun name => !overlap.contains (normalizeKey name))
    subtractNames := dedupedSubtract.filter (fun name => !overlap.contains (normalizeKey name))
    issues := multipleIssues ++ addResolved.2 ++ subtractResolved.2 }

/-! ### Shared boss-and-names step (`applyBossAndNames`) -/

def applyBossAndNames (parsed : ParsedLine) (bossTokenRaw : String)
    (nameTokens : List String) (lookup : ParserLookup) : ParsedLine :=
  let afterModifiers := applyBossModifiers bossTokenRaw parsed
  let parsed := afterModifiers.1
  let bossToken := afterModifiers.2
  let parsed := { parsed with bossRaw := some bossToken }
  let bossResolved := resolveBoss bossToken lookup
  let parsed :=
    match bossResolved.issue with
    | some issue => { parsed with issues := parsed.issues ++ [issue] }
    | none => { parsed with bossCanonical := bossResolved.canonical }
  let split := applyNamesWithNotRule nameTokens lookup
  { parsed with
      addNames := split.addNames
      subtractNames := split.subtractNames
      issues := parsed.issues ++ split.issues }

/-! ### External collaborators: the JS `RegExp` engine and luxon

The two dialect regexes and `DateTime.fromFormat` are external to the
parsing logic; they are modelled as an explicit environment.  `oldMatch` and
`newMatch` return the two capture groups of `OLD_FORMAT_REGEX` resp.
`NEW_FORMAT_REGEX` when the line matches; `fromFormat raw format zone`
returns the UTC instant in milliseconds when luxon accepts the parse. -/

structure JsEnv where
  oldMatch : String → Option (String × String)
  newMatch : String → Option (String × String)
  fromFormat : String → String → String → Option Int

def OLD_TIMESTAMP_FORMATS : List String :=
  ["LLLL d, yyyy h:mm a", "LLL d, yyyy h:mm a"]

def NEW_TIMESTAMP_FORMATS : List String :=
  ["d LLL yyyy \x27at\x27 H:mm",
   "d LLL yyyy \x27at\x27 HH:mm",
   "d LLL yyyy \x27at\x27 h:mm a",
   "d LLLL yyyy \x27at\x27 H:mm",
   "d LLLL yyyy \x27at\x27 HH:mm",
   "d LLLL yyyy \x27at\x27 h:mm a"]

/-- Source `parseTimestampToUtcMillis`: try the format list in order, first valid
parse wins. -/
def parseTimestampToUtcMillis (env : JsEnv) (timestampRaw timezone : String) :
    List String → Option Int
  | [] => none
  | format :: rest =>
    match env.fromFormat timestampRaw format timezone with
    | some millis => some millis
    | none => parseTimestampToUtcMillis env timestampRaw timezone rest

/-- JS `String.prototype.indexOf` for a single character (`none` is `-1`). -/
def charIndexOfAux (c : Char) : List Char → Nat → Option Nat
  | [], _ => none
  | d :: rest, i => if d = c then some i else charIndexOfAux c rest (i + 1)

def charIndexOf (c : Char) (s : String) : Option Nat :=
  charIndexOfAux c s.data 0

/-- JS `.slice(0, i)` / `.slice(i)` and `.trim()` on strings. -/
def sliceTo (s : String) (i : Nat) : String :=
  String.mk (s.data.take i)

def sliceFrom (s : String) (i : Nat) : String :=
  String.mk (s.data.drop i)

def jsTrim (s : String) : String :=
  String.mk (trimChars s.data)

def joinWithSpace : List String → String
  | [] => ""
  | [s] => s
  | s :: rest => s ++ " " ++ joinWithSpace rest

/-! ### Legacy dialect (`parseOldFormatLine`) -/

def parseOldFormatLine (env : JsEnv) (parsed : ParsedLine) (timezone : String)
    (lookup : ParserLookup) (capture : String × String) : ParsedLine :=
  let timestampRaw := capture.1
  let remainder := capture.2
  let parsed := { parsed with timestampRaw := some timestampRaw }
  let parsed : ParsedLine :=
    match parseTimestampToUtcMillis env timestampRaw timezone OLD_TIMESTAMP_FORMATS with
    | none =>
      { parsed with issues := parsed.issues ++
          [{ type := .InvalidTimestamp,
             message := "Unable to parse timestamp with timezone " ++ timezone ++ "." }] }
    | some millis => { parsed with timestampUtcMillis := some millis }
  match charIndexOf ':' remainder with
  | none =>
    { parsed with issues := parsed.issues ++
        [{ type := .UnsupportedFormat,
           message := "Missing second \x27:\x27 separator for author and payload." }] }
  | some splitIndex =>
    let parsed := { parsed with author := some (jsTrim (sliceTo remainder splitIndex)) }
    let payload := jsTrim (sliceFrom remainder (splitIndex + 1))
    let words := splitWords payload
    match words with
    | [] =>
      { parsed with issues := parsed.issues ++
          [{ type := .UnsupportedFormat, message := "Payload is empty." }] }
    | bossToken :: nameTokens =>
      applyBossAndNames parsed bossToken nameTokens lookup

/-! ### Alternate dialect (`chooseBossIndexForNewFormat`, `parseNewFormatLine`) -/

def isLikelyNameTailToken (token : String) (lookup : ParserLookup) : Bool :=
  if jsToLower token = "not" then true
  -- JS truthiness: a canonical resolution counts only if non-empty
  else if ((resolveName token lookup).canonical.getD "") ≠ "" then true
  else !looksBossLikeToken (stripBossToken token)

def isBossCandidateToken (token : String) (lookup : ParserLookup) : Bool :=
  let cleanToken := stripBossToken token
  let key := normalizeBossKey cleanToken
  if key = "" then false
  else if mapHas lookup.bossAliasByKey key || mapHas lookup.bossesByKey key then true
  else looksBossLikeToken cleanToken

/-- The boss-candidate indices of the token list, in ascending order. -/
def bossCandidateIndexes (tokens : List String) (lookup : ParserLookup) : List Nat :=
  (tokens.enum.filter (fun entry => isBossCandidateToken entry.2 lookup)).map
    (fun entry => entry.1)

/-- The backward scan for where name-tail tokens begin: index of the first
token of the maximal name-tail suffix (`tokens.length` when the suffix is
empty). -/
def nameTailStart (tokens : List String) (lookup : ParserLookup) : Nat :=
  tokens.length -
    (tokens.reverse.takeWhile (fun token => isLikelyNameTailToken token lookup)).length

/-- Source `chooseBossIndexForNewFormat`: `-1` when there is no candidate, else the
last candidate strictly before the name-tail start, else the last candidate
overall. -/
def chooseBossIndexForNewFormat (tokens : List String) (lookup : ParserLookup) : Int :=
  let candidates := bossCandidateIndexes tokens lookup
  if candidates.isEmpty then -1
  else
    let tailStart := nameTailStart tokens lookup
    let beforeTail := candidates.filter (fun index => index < tailStart)
    if !beforeTail.isEmpty then
      match beforeTail.getLast? with
      | some index => (index : Int)
      | none => -1
    else
      match candidates.getLast? with
      | some index => (index : Int)
      | none => -1

def parseNewFormatLine (env : JsEnv) (parsed : ParsedLine) (timezone : String)
    (lookup : ParserLookup) (capture : String × String) : ParsedLine :=
  let timestampRaw := jsTrim capture.1
  let tail := jsTrim capture.2
  let parsed := { parsed with timestampRaw := some timestampRaw }
  let parsed : ParsedLine :=
    match parseTimestampToUtcMillis env timestampRaw timezone NEW_TIMESTAMP_FORMATS with
    | none =>
      { parsed with issues := parsed.issues ++
          [{ type := .InvalidTimestamp,
             message := "Unable to parse timestamp with timezone " ++ timezone ++ "." }] }
    | some millis => { parsed with timestampUtcMillis := some millis }
  let words := splitWords tail
  if words.isEmpty then
    { parsed with issues := parsed.issues ++
        [{ type := .UnsupportedFormat, message := "Payload is empty." }] }
  else
    match chooseBossIndexForNewFormat words lookup with
    | Int.negSucc _ =>
      { parsed with issues := parsed.issues ++
          [{ type := .UnsupportedFormat,
             message := "Unable to determine boss token in alternate format." }] }
    | Int.ofNat bossIndex =>
      let parsed :=
        { parsed with author := some (jsTrim (joinWithSpace (words.take bossIndex))) }
      applyBossAndNames parsed ((words.drop bossIndex).headD "")
        (words.drop (bossIndex + 1)) lookup

/-! ### Entry point (`parseLine`) -/

/-- The fresh `ParsedLine` record built at the top of `parseLine`. -/
def initParsedLine (rawText : String) (lineNumber : Nat) : ParsedLine where
  lineNumber := lineNumber
  rawText := rawText
  pointsBonus := 0
  pointsMultiplier := 1
  addNames := []
  subtractNames := []
  issues := []

def parseLine (env : JsEnv) (rawText : String) (lineNumber : Nat)
    (timezone : String) (lookup : ParserLookup) : ParsedLine :=
  let parsed := initParsedLine rawText lineNumber
  match env.oldMatch rawText with
  | some capture => parseOldFormatLine env parsed timezone lookup capture
  | none =>
    match env.newMatch rawText with
    | some capture => parseNewFormatLine env parsed timezone lookup capture
    | none =>
      { parsed with issues :=
          [{ type := .UnsupportedFormat,
             message := "Line does not match supported old or alternate BAND export formats." }] }

/-! ### Week window (`week.ts`) and the merge/window filter (`WizardPage.tsx`)

`weekBoundsFromUtcSunday` parses a `yyyy-MM-dd` string in the UTC zone,
takes the start of that day, and the end of day six days later.  The ISO
date is abstracted to its epoch-day count (what luxon's
`startOf("day").toMillis()` divides out); in UTC a day is exactly
86400000 ms and `endOf("day")` is 1 ms before the next day. -/

structure WeekBounds where
  startUtcMillis : Int
  endUtcMillis : Int
deriving DecidableEq, Repr

def msPerDay : Int := 86400000

def weekBoundsFromUtcSunday (weekStartEpochDay : Int) : WeekBounds where
  startUtcMillis := weekStartEpochDay * msPerDay
  endUtcMillis := (weekStartEpochDay + 6) * msPerDay + (msPerDay - 1)

/-- The per-entry decision of the parse loop in `parseCurrentFile`: an entry
with no resolved timestamp is kept only when it carries issues; an entry with
a timestamp is kept only when the instant lies inside the week window. -/
def keepLineForWindow (bounds : WeekBounds) (parsed : ParsedLine) : Bool :=
  match parsed.timestampUtcMillis with
  | none => !parsed.issues.isEmpty
  | some millis =>
    !(millis < bounds.startUtcMillis || millis > bounds.endUtcMillis)

/-- The output-building loop of `parseCurrentFile` after merging: parse each
logical entry, then keep or discard it. -/
def parseAndWindowEntries (env : JsEnv) (timezone : String) (lookup : ParserLookup)
    (bounds : WeekBounds) (entries : List (Nat × String)) : List ParsedLine :=
  (entries.map (fun entry => parseLine env entry.2 entry.1 timezone lookup)).filter
    (fun parsed => keepLineForWindow bounds parsed)

/-! ### Aggregation (`compute.ts`) -/

structure ActivityThresholds where
  lowMax : Int
  mediumMax : Int
deriving DecidableEq, Repr

def activityLevel (points : Int) (thresholds : ActivityThresholds) : String :=
  if points ≤ thresholds.lowMax then "Low"
  else if points ≤ thresholds.mediumMax then "Medium"
  else "High"

structure WeekSummaryRow where
  name : String
  totalPoints : Int
  activityLevel : String
  streak : Int
  last3WeeksTotal : Int
  bossPoints : List (String × Int)
  bossCounts : List (String × Int)
deriving DecidableEq, Repr

/-- JS object / insertion-ordered map update: replace in place when the key
exists, append otherwise.  Keys are unique by construction. -/
def omapSet {α : Type} : List (String × α) → String → α → List (String × α)
  | [], key, value => [(key, value)]
  | (k, v) :: rest, key, value =>
    if k = key then (k, value) :: rest else (k, v) :: omapSet rest key value

def omapGet {α : Type} : List (String × α) → String → Option α
  | [], _ => none
  | (k, v) :: rest, key => if k = key then some v else omapGet rest key

/-- The per-line effective points of `computeWeeklySummary`:
`(basePoints + bonus) * multiplier`, kept as-is when integral and rounded
with `Math.ceil` otherwise. -/
def effectiveLinePoints (basePoints bonus : Int) (multiplier : ℚ) : Int :=
  let rawPoints := ratMul (mkRat (basePoints + bonus) 1) multiplier
  if rawPoints.den = 1 then rawPoints.num else Rat.ceil rawPoints

/-- Lexicographic character comparison standing in for `localeCompare`
(negative/zero/positive). -/
def charListCmp : List Char → List Char → Int
  | [], [] => 0
  | [], _ :: _ => -1
  | _ :: _, [] => 1
  | a :: as, b :: bs => if a < b then -1 else if b < a then 1 else charListCmp as bs

def strCmp (a b : String) : Int :=
  charListCmp a.data b.data

/-- Stable insertion sort standing in for `Array.prototype.sort` with a
consistent comparator: an element is placed after every already-placed
element that compares `≤ 0` against it. -/
def insertSorted {α : Type} (le : α → α → Bool) (x : α) : List α → List α
  | [] => [x]
  | y :: ys => if le y x then y :: insertSorted le x ys else x :: y :: ys

def stableSortBy {α : Type} (le : α → α → Bool) (l : List α) : List α :=
  l.foldl (fun acc x => insertSorted le x acc) []

/-- The comparator `(a, b) => b.totalPoints - a.totalPoints ||
a.name.localeCompare(b.name)` as a `≤ 0` test. -/
def summaryRowLe (a b : WeekSummaryRow) : Bool :=
  if b.totalPoints - a.totalPoints ≠ 0 then b.totalPoints - a.totalPoints < 0
  else strCmp a.name b.name ≤ 0

/-- Credit one issue-free line into the rows map (the body of the aggregation
loop: add to every add-name, subtract for every subtract-name). -/
def creditLine (rows : List (String × WeekSummaryRow)) (boss : String)
    (points : Int) (line : ParsedLine) : List (String × WeekSummaryRow) :=
  let rows := line.addNames.foldl
    (fun rows name =>
      match omapGet rows name with
      | none => rows
      | some row =>
        omapSet rows name
          { row with
              totalPoints := row.totalPoints + points
              bossPoints := omapSet row.bossPoints boss
                ((omapGet row.bossPoints boss).getD 0 + points)
              bossCounts := omapSet row.bossCounts boss
                ((omapGet row.bossCounts boss).getD 0 + 1) })
    rows
  line.subtractNames.foldl
    (fun rows name =>
      match omapGet rows name with
      | none => rows
      | some row =>
        omapSet rows name
          { row with
              totalPoints := row.totalPoints - points
              bossPoints := omapSet row.bossPoints boss
                ((omapGet row.bossPoints boss).getD 0 - points)
              bossCounts := omapSet row.bossCounts boss
                ((omapGet row.bossCounts boss).getD 0 - 1) })
    rows

def computeWeeklySummary (lines : List ParsedLine)
    (bossPointsByName : List (String × Int)) (users : List String)
    (thresholds : ActivityThresholds) : List WeekSummaryRow :=
  let rows : List (String × WeekSummaryRow) :=
    users.foldl
      (fun rows user =>
        omapSet rows user
          { name := user, totalPoints := 0, activityLevel := "Low", streak := 1,
            last3WeeksTotal := 0, bossPoints := [], bossCounts := [] })
      []
  let rows := lines.foldl
    (fun rows line =>
      if !line.issues.isEmpty then rows
      else
        match line.bossCanonical with
        | none => rows
        | some boss =>
          let basePoints := (mapGet bossPointsByName boss).getD 0
          let points := effectiveLinePoints basePoints line.pointsBonus line.pointsMultiplier
          creditLine rows boss points line)
    rows
  let output := rows.map (fun entry => entry.2)
  let output := output.map
    (fun row => { row with activityLevel := activityLevel row.totalPoints thresholds })
  stableSortBy summaryRowLe output

/-! ### Streak recomputation (`recomputeStreaks`) -/

structure HistoricalRow where
  weekId : String
  name : String
  totalPoints : Int
  activityLevel : String
  streak : Int
deriving DecidableEq, Repr

/-- JS `Array.prototype.indexOf` on strings (`-1` when absent). -/
def jsIndexOfAux (x : String) : List String → Int → Int
  | [], _ => -1
  | s :: rest, i => if s = x then i else jsIndexOfAux x rest (i + 1)

def jsIndexOf (l : List String) (x : String) : Int :=
  jsIndexOfAux x l 0

/-- The comparator of the per-user sort:
`weeksOrder.indexOf(a.weekId) - weeksOrder.indexOf(b.weekId) ||
a.weekId.localeCompare(b.weekId)` as a `≤ 0` test (rows tagged with their
position in the original array to model object identity). -/
def weekRowLe (weeksOrder : List String) (a b : Nat × HistoricalRow) : Bool :=
  let diff := jsIndexOf weeksOrder a.2.weekId - jsIndexOf weeksOrder b.2.weekId
  if diff ≠ 0 then diff < 0 else strCmp a.2.weekId b.2.weekId ≤ 0

/-- The streak walk over one user's sorted rows: consecutive rows with the
same activity level increment the counter, a level change resets it to 1.
Returns the streak assigned to each tagged row. -/
def walkStreaksAux (streak : Int) (prevLevel : String) :
    List (Nat × HistoricalRow) → List (Nat × Int)
  | [] => []
  | (index, row) :: rest =>
    let newStreak := if row.activityLevel = prevLevel then streak + 1 else 1
    (index, newStreak) :: walkStreaksAux newStreak row.activityLevel rest

def walkStreaks (rows : List (Nat × HistoricalRow)) : List (Nat × Int) :=
  walkStreaksAux 0 "" rows

/-- Insertion-ordered distinct names, as iterating the `byName` JS `Map`. -/
def distinctNamesAux (seen : List String) : List String → List String
  | [] => []
  | n :: rest =>
    if seen.contains n then distinctNamesAux seen rest
    else n :: distinctNamesAux (n :: seen) rest

def distinctNames (l : List String) : List String :=
  distinctNamesAux [] l

def lookupIndexed (assignments : List (Nat × Int)) (index : Nat) : Option Int :=
  match assignments.find? (fun entry => entry.1 = index) with
  | some entry => some entry.2
  | none => none

/-- Source `recomputeStreaks`: group rows by user (insertion order), sort each group
by canonical week order with the weekId tie-break, walk the streak counter,
and write each row's streak back in place (rows keep their original list
positions, modelled by the `enum` tags). -/
def recomputeStreaks (allTotals : List HistoricalRow) (weeksOrder : List String) :
    List HistoricalRow :=
  let indexed := allTotals.enum
  let names := distinctNames (indexed.map (fun entry => entry.2.name))
  let assignments := names.flatMap
    (fun name =>
      let group := indexed.filter (fun entry => entry.2.name = name)
      let sorted := stableSortBy (weekRowLe weeksOrder) group
      walkStreaks sorted)
  indexed.map
    (fun entry =>
      match lookupIndexed assignments entry.1 with
      | some streak => { entry.2 with streak := streak }
      | none => entry.2)

/-! ## Shared helper lemmas -/

/-- Library `Rat.ceil` agrees with the mathematical ceiling. -/
theorem ratCeil_eq_intCeil (q : ℚ) : Rat.ceil q = ⌈q⌉ := by
  by_cases h : q.den = 1
  · have hq : (q.num : ℚ) = q := Rat.coe_int_num_of_den_eq_one h
    rw [Rat.ceil, if_pos h]
    conv_rhs => rw [← hq]
    rw [Int.ceil_intCast]
  · have hne : q ≠ ((⌊q⌋ : ℤ) : ℚ) := by
      intro hq
      exact h (by rw [hq]; exact Rat.den_intCast _)
    have h1 : ((⌊q⌋ : ℤ) : ℚ) < q := lt_of_le_of_ne (Int.floor_le q) (Ne.symm hne)
    have h2 : q ≤ ((⌊q⌋ : ℤ) : ℚ) + 1 := (Int.lt_floor_add_one q).le
    have hceil : ⌈q⌉ = ⌊q⌋ + 1 := by
      rw [Int.ceil_eq_iff]
      constructor
      · push_cast
        linarith
      · push_cast
        linarith
    rw [Rat.ceil, if_neg h, hceil, ← Rat.floor_def]

theorem mem_of_mem_enumFrom {α : Type} :
    ∀ {l : List α} {n : Nat} {x : Nat × α}, x ∈ List.enumFrom n l → x.2 ∈ l := by
  intro l
  induction l with
  | nil => intro n x h; simp [List.enumFrom] at h
  | cons a t ih =>
    intro n x h
    simp only [List.enumFrom, List.mem_cons] at h
    rcases h with h | h
    · subst h; simp
    · exact List.mem_cons_of_mem a (ih h)

theorem enumFrom_filter_snd_length {α : Type} (p : α → Bool) :
    ∀ (l : List α) (n : Nat),
      ((List.enumFrom n l).filter (fun e => p e.2)).length = (l.filter p).length := by
  intro l
  induction l with
  | nil => intro n; simp [List.enumFrom]
  | cons a t ih =>
    intro n
    simp only [List.enumFrom, List.filter]
    by_cases h : p a
    · simp only [h, List.length_cons]
      rw [ih]
    · simp only [h]
      rw [ih]

/-- Field preservation of `applyBossModifiers`: only the bonus, the
multiplier and the issue list change, and issues only grow at the tail. -/
theorem applyBossModifiers_fields (t : String) (p : ParsedLine) :
    ((applyBossModifiers t p).1).author = p.author ∧
    ((applyBossModifiers t p).1).timestampUtcMillis = p.timestampUtcMillis ∧
    ((applyBossModifiers t p).1).bossRaw = p.bossRaw ∧
    ((applyBossModifiers t p).1).bossCanonical = p.bossCanonical ∧
    ∃ extra, ((applyBossModifiers t p).1).issues = p.issues ++ extra := by
  unfold applyBossModifiers
  by_cases h : (parentheticalContents t).isEmpty
  · refine ⟨?_, ?_, ?_, ?_, [], ?_⟩ <;> simp [h]
  · refine ⟨?_, ?_, ?_, ?_,
      (collectModifiers ((parentheticalContents t).flatMap modifierTokensOfContent)).2, ?_⟩ <;>
    · simp only [h, Bool.false_eq_true, if_false]
      split <;> split <;> split <;> rfl

/-- Field behaviour of `applyBossAndNames`: the author and the timestamp are
untouched and issues only grow at the tail. -/
theorem applyBossAndNames_fields (p : ParsedLine) (b : String) (ns : List String)
    (lk : ParserLookup) :
    (applyBossAndNames p b ns lk).author = p.author ∧
    (applyBossAndNames p b ns lk).timestampUtcMillis = p.timestampUtcMillis ∧
    ∃ extra, (applyBossAndNames p b ns lk).issues = p.issues ++ extra := by
  obtain ⟨ha, ht, _, _, extra, hiss⟩ := applyBossModifiers_fields b p
  unfold applyBossAndNames
  cases hi : (resolveBoss (applyBossModifiers b p).2 lk).issue with
  | some issue =>
    simp only [hi]
    refine ⟨ha, ht, extra ++ [issue] ++ (applyNamesWithNotRule ns lk).issues, ?_⟩
    show ((applyBossModifiers b p).1.issues ++ [issue]) ++ (applyNamesWithNotRule ns lk).issues = _
    rw [hiss]
    simp [List.append_assoc]
  | none =>
    simp only [hi]
    refine ⟨ha, ht, extra ++ (applyNamesWithNotRule ns lk).issues, ?_⟩
    show (applyBossModifiers b p).1.issues ++ (applyNamesWithNotRule ns lk).issues = _
    rw [hiss]
    simp [List.append_assoc]

/-! ## Test fixtures: a small roster and deterministic environments -/

def sampleLookup : ParserLookup :=
  createParserLookup ["Alice", "Bob", "Carol"] [⟨"Hydra", 10⟩] [] []

/-- A roster in which `Alice` is both a canonical user and a boss, to
exercise boss candidates occurring inside the name tail. -/
def sampleLookupBossAlice : ParserLookup :=
  createParserLookup ["Alice", "Bob", "Carol"] [⟨"Hydra", 10⟩, ⟨"Alice", 7⟩] [] []

def sampleOldLine : String := "Mar 3, 2024 7:05 PM: Author: Hydra Alice not Alice"

/-- Environment in which the legacy regex matches exactly `sampleOldLine`
and every timestamp parse succeeds at instant 42. -/
def sampleEnvOld : JsEnv where
  oldMatch := fun raw =>
    if raw = sampleOldLine then some ("Mar 3, 2024 7:05 PM", "Author: Hydra Alice not Alice")
    else none
  newMatch := fun _ => none
  fromFormat := fun _ _ _ => some 42

/-- Environment in which nothing matches and no timestamp parses. -/
def sampleEnvNone : JsEnv where
  oldMatch := fun _ => none
  newMatch := fun _ => none
  fromFormat := fun _ _ _ => none

/-- The overlap-removal filters of `applyNamesWithNotRule` leave no pair of
entries with the same normalized key on the two sides. -/
theorem overlap_filter_disjoint (A S : List String) (a b : String)
    (ha : a ∈ A.filter (fun name =>
        !((A.map (fun n => normalizeKey n)).filter
            (fun key => (S.map (fun n => normalizeKey n)).contains key)).contains
          (normalizeKey name)))
    (hb : b ∈ S.filter (fun name =>
        !((A.map (fun n => normalizeKey n)).filter
            (fun key => (S.map (fun n => normalizeKey n)).contains key)).contains
          (normalizeKey name))) :
    normalizeKey a ≠ normalizeKey b := by
  intro heq
  rw [List.mem_filter] at ha hb
  obtain ⟨haA, hpa⟩ := ha
  obtain ⟨hbS, _⟩ := hb
  have hka : normalizeKey a ∈ A.map (fun n => normalizeKey n) :=
    List.mem_map_of_mem _ haA
  have hkb : normalizeKey a ∈ S.map (fun n => normalizeKey n) := by
    rw [heq]
    exact List.mem_map_of_mem _ hbS
  have hcont : (S.map (fun n => normalizeKey n)).contains (normalizeKey a) = true :=
    List.elem_iff.mpr hkb
  have hmem : normalizeKey a ∈ (A.map (fun n => normalizeKey n)).filter
      (fun key => (S.map (fun n => normalizeKey n)).contains key) :=
    List.mem_filter.mpr ⟨hka, hcont⟩
  have hover : ((A.map (fun n => normalizeKey n)).filter
      (fun key => (S.map (fun n => normalizeKey n)).contains key)).contains
      (normalizeKey a) = true :=
    List.elem_iff.mpr hmem
  rw [hover] at hpa
  simp at hpa

/-- C2: for every parsed line, no name appears in both `addNames` and
`subtractNames`: a name resolving to the same normalized canonical user on
both sides of the `not` split is removed from both lists, not just one; in
particular a line with payload `"Hydra Alice not Alice"` yields
`addNames = []` and `subtractNames = []`. -/
theorem parsed_line_no_add_subtract_overlap :
    (∀ (nameTokens : List String) (lookup : ParserLookup) (a b : String),
        a ∈ (applyNamesWithNotRule nameTokens lookup).addNames →
        b ∈ (applyNamesWithNotRule nameTokens lookup).subtractNames →
        normalizeKey a ≠ normalizeKey b) ∧
    (parseLine sampleEnvOld sampleOldLine 1 "UTC" sampleLookup).addNames = [] ∧
    (parseLine sampleEnvOld sampleOldLine 1 "UTC" sampleLookup).subtractNames = [] := by
  refine ⟨?_, by decide, by decide⟩
  intro nameTokens lookup a b ha hb
  simp only [applyNamesWithNotRule] at ha hb
  exact overlap_filter_disjoint _ _ a b ha hb

/-- Witness for C2 at a concrete input: `"Alice"` is an add name and
`"Bob"` a subtract name of the token list `["Alice", "not", "Bob"]`, and
their normalized keys differ. -/
theorem parsed_line_no_add_subtract_overlap_witness :
    normalizeKey "Alice" ≠ normalizeKey "Bob" :=
  parsed_line_no_add_subtract_overlap.1 ["Alice", "not", "Bob"] sampleLookup
    "Alice" "Bob" (by decide) (by decide)

/-- C1 counterexample: with name tokens `["Alice", "not", "Bob", "not",
"Carol"]` (two occurrences of `not`), the parser does NOT split at the first
`not`: the claim would give `addNames = ["Alice"]` and
`subtractNames = ["Bob", "Carol"]`, but the code puts every token on the add
side (`splitAt` is `-1` unless there is exactly one `not`) and leaves the
subtract side empty.  The `MultipleNotTokens` issue itself is attached. -/
theorem multiple_not_split_counterexample :
    (applyNamesWithNotRule ["Alice", "not", "Bob", "not", "Carol"] sampleLookup).addNames =
        ["Alice", "Bob", "Carol"] ∧
    (applyNamesWithNotRule ["Alice", "not", "Bob", "not", "Carol"] sampleLookup).subtractNames =
        [] ∧
    ¬((applyNamesWithNotRule ["Alice", "not", "Bob", "not", "Carol"] sampleLookup).addNames =
          ["Alice"] ∧
      (applyNamesWithNotRule ["Alice", "not", "Bob", "not", "Carol"] sampleLookup).subtractNames =
          ["Bob", "Carol"]) := by
  refine ⟨by decide, by decide, ?_⟩
  intro h
  exact absurd h.1 (by decide)

/-- When the subtract-side key set is everywhere-false, the overlap filter
keeps the whole add list. -/
theorem filter_overlap_empty {α : Type} [BEq α] (f : α → α) (A : List α)
    (q : α → Bool) (hq : ∀ k, q k = false) :
    A.filter (fun x => !((A.map f).filter q).contains (f x)) = A := by
  rw [List.filter_eq_self]
  intro a _
  have h1 : (A.map f).filter q = [] :=
    List.filter_eq_nil_iff.mpr (fun k _ => by simp [hq k])
  rw [h1]
  rfl

/-- C1 (amended): with more than one occurrence of the case-insensitive
token `not`, `parseLine` attaches a `MultipleNotTokens` issue and continues
parsing with NO split point: every name token is an add candidate and the
subtract candidate list is empty. -/
theorem multiple_not_tokens_no_split :
    ∀ (nameTokens : List String) (lookup : ParserLookup),
      1 < (nameTokens.filter (fun token => jsToLower token = "not")).length →
      ({ type := .MultipleNotTokens,
         message := "More than one NOT token found in a single line." } : ParseIssue)
          ∈ (applyNamesWithNotRule nameTokens lookup).issues ∧
      (applyNamesWithNotRule nameTokens lookup).subtractNames = [] ∧
      (applyNamesWithNotRule nameTokens lookup).addNames =
        dedupePreserveOrder (resolveNameTokens nameTokens lookup).1 := by
  intro nameTokens lookup hcount
  have hlen : ((nameTokens.enum.filter (fun e => jsToLower e.2 = "not")).map
      (fun e => e.1)).length =
      (nameTokens.filter (fun token => jsToLower token = "not")).length := by
    rw [List.length_map]
    simp only [List.enum]
    exact enumFrom_filter_snd_length (fun token => decide (jsToLower token = "not")) nameTokens 0
  have hgt : 1 < ((nameTokens.enum.filter (fun e => jsToLower e.2 = "not")).map
      (fun e => e.1)).length := by omega
  have hne : ¬(((nameTokens.enum.filter (fun e => jsToLower e.2 = "not")).map
      (fun e => e.1)).length = 1) := by omega
  simp only [applyNamesWithNotRule, if_pos hgt, if_neg hne]
  exact ⟨by simp, rfl,
    filter_overlap_empty (fun n => normalizeKey n)
      (dedupePreserveOrder (resolveNameTokens nameTokens lookup).1) _ (fun k => rfl)⟩

/-- Witness for C1 (amended) at the counterexample input. -/
theorem multiple_not_tokens_no_split_witness :
    ({ type := .MultipleNotTokens,
       message := "More than one NOT token found in a single line." } : ParseIssue)
        ∈ (applyNamesWithNotRule ["Alice", "not", "Bob", "not", "Carol"] sampleLookup).issues ∧
    (applyNamesWithNotRule ["Alice", "not", "Bob", "not", "Carol"] sampleLookup).subtractNames =
        [] ∧
    (applyNamesWithNotRule ["Alice", "not", "Bob", "not", "Carol"] sampleLookup).addNames =
      dedupePreserveOrder
        (resolveNameTokens ["Alice", "not", "Bob", "not", "Carol"] sampleLookup).1 :=
  multiple_not_tokens_no_split ["Alice", "not", "Bob", "not", "Carol"] sampleLookup (by decide)

theorem mkRat_two_one : (mkRat 2 1 : ℚ) = 2 := by
  rw [Rat.mkRat_one]
  norm_num

theorem mkRat_half : (mkRat 1 2 : ℚ) = 1 / 2 := by
  rw [Rat.mkRat_eq_div]
  norm_num

/-- C3: parenthetical boss-token modifiers map through the fixed synonym
table (`brucy`/`brucybonus` add +5, `fail`/`comp` halve, `double`/
`doublepoints` double), recognized modifiers are deduplicated by kind, the
parenthetical text is stripped before boss resolution, and a boss worth 10
with token `"Hydra(brucy)(double)"` yields bonus 5, multiplier 2 and
effective points 30. -/
theorem boss_modifier_synonyms_dedup_strip :
    (applyBossModifiers "X(brucy)" (initParsedLine "" 0)).1.pointsBonus = 5 ∧
    (applyBossModifiers "X(brucybonus)" (initParsedLine "" 0)).1.pointsBonus = 5 ∧
    (applyBossModifiers "X(fail)" (initParsedLine "" 0)).1.pointsMultiplier = 1 / 2 ∧
    (applyBossModifiers "X(comp)" (initParsedLine "" 0)).1.pointsMultiplier = 1 / 2 ∧
    (applyBossModifiers "X(double)" (initParsedLine "" 0)).1.pointsMultiplier = 2 ∧
    (applyBossModifiers "X(doublepoints)" (initParsedLine "" 0)).1.pointsMultiplier = 2 ∧
    (applyBossModifiers "Hydra(double)(double)" (initParsedLine "" 0)).1.pointsMultiplier = 2 ∧
    (applyBossModifiers "Hydra(brucy)(double)" (initParsedLine "" 0)).1.pointsBonus = 5 ∧
    (applyBossModifiers "Hydra(brucy)(double)" (initParsedLine "" 0)).1.pointsMultiplier = 2 ∧
    (applyBossModifiers "Hydra(brucy)(double)" (initParsedLine "" 0)).2 = "Hydra" ∧
    (applyBossAndNames (initParsedLine "" 0) "Hydra(brucy)(double)" [] sampleLookup).bossCanonical =
        some "Hydra" ∧
    effectiveLinePoints 10
        (applyBossModifiers "Hydra(brucy)(double)" (initParsedLine "" 0)).1.pointsBonus
        (applyBossModifiers "Hydra(brucy)(double)" (initParsedLine "" 0)).1.pointsMultiplier = 30 := by
  refine ⟨by decide, by decide, ?_, ?_, ?_, ?_, ?_, by decide, ?_, by decide, by decide, by decide⟩
  · rw [show (applyBossModifiers "X(fail)" (initParsedLine "" 0)).1.pointsMultiplier = mkRat 1 2
      from by decide]
    exact mkRat_half
  · rw [show (applyBossModifiers "X(comp)" (initParsedLine "" 0)).1.pointsMultiplier = mkRat 1 2
      from by decide]
    exact mkRat_half
  · rw [show (applyBossModifiers "X(double)" (initParsedLine "" 0)).1.pointsMultiplier = mkRat 2 1
      from by decide]
    exact mkRat_two_one
  · rw [show (applyBossModifiers "X(doublepoints)" (initParsedLine "" 0)).1.pointsMultiplier =
        mkRat 2 1 from by decide]
    exact mkRat_two_one
  · rw [show (applyBossModifiers "Hydra(double)(double)" (initParsedLine "" 0)).1.pointsMultiplier =
        mkRat 2 1 from by decide]
    exact mkRat_two_one
  · rw [show (applyBossModifiers "Hydra(brucy)(double)" (initParsedLine "" 0)).1.pointsMultiplier =
        mkRat 2 1 from by decide]
    exact mkRat_two_one

/-- An issue-free parsed line crediting `Alice` for a boss with a halving
modifier already applied. -/
def sampleHalfLine : ParsedLine :=
  { initParsedLine "raw" 1 with
      bossCanonical := some "Hydra"
      pointsMultiplier := mkRat 1 2
      addNames := ["Alice"] }

/-- C4: the effective points credited per name for an issue-free line equal
`(basePoints + pointsBonus) * pointsMultiplier`, rounded up to the nearest
integer when fractional; a boss worth 3 with a `fail` modifier (×1/2) yields
`⌈3/2⌉ = 2`, and `computeWeeklySummary` credits exactly that amount. -/
theorem effective_points_ceil_rounding :
    (∀ (basePoints bonus : Int) (multiplier : ℚ),
        effectiveLinePoints basePoints bonus multiplier =
          ⌈((basePoints : ℚ) + (bonus : ℚ)) * multiplier⌉) ∧
    effectiveLinePoints 3 0 (mkRat 1 2) = 2 ∧
    computeWeeklySummary [sampleHalfLine] [("Hydra", 3)] ["Alice"] ⟨2, 5⟩ =
      [{ name := "Alice", totalPoints := 2, activityLevel := "Low", streak := 1,
         last3WeeksTotal := 0, bossPoints := [("Hydra", 2)], bossCounts := [("Hydra", 1)] }] := by
  refine ⟨?_, by decide, by decide⟩
  intro basePoints bonus multiplier
  have hsel : ∀ q : ℚ, (if q.den = 1 then q.num else Rat.ceil q) = Rat.ceil q := by
    intro q
    by_cases h : q.den = 1
    · rw [if_pos h, Rat.ceil, if_pos h]
    · rw [if_neg h]
  have hraw : ratMul (mkRat (basePoints + bonus) 1) multiplier =
      ((basePoints : ℚ) + (bonus : ℚ)) * multiplier := by
    rw [ratMul_eq_mul, Rat.mkRat_one]
    push_cast
    ring
  simp only [effectiveLinePoints]
  rw [hsel, ratCeil_eq_intCeil, hraw]

/-- The step behaviour of the streak walk, for any starting state: the
streak at a row is its predecessor's streak plus one when the activity
level is unchanged, and 1 when it changed. -/
theorem walkStreaksAux_step :
    ∀ (rows : List (Nat × HistoricalRow)) (s : Int) (p : String) (i : Nat)
      (a b : Nat × HistoricalRow) (sa : Nat × Int),
      rows.get? i = some a → rows.get? (i + 1) = some b →
      (walkStreaksAux s p rows).get? i = some sa →
      (walkStreaksAux s p rows).get? (i + 1) =
        some (b.1, if b.2.activityLevel = a.2.activityLevel then sa.2 + 1 else 1) := by
  intro rows
  induction rows with
  | nil => intro s p i a b sa ha _ _; simp at ha
  | cons head t ih =>
    intro s p i a b sa ha hb hsa
    cases i with
    | zero =>
      simp only [List.get?] at ha hb
      obtain rfl : head = a := by injection ha
      cases t with
      | nil => simp at hb
      | cons b' t' =>
        obtain rfl : b' = b := by injection hb
        simp only [walkStreaksAux, List.get?] at hsa ⊢
        injection hsa with hsa'
        subst hsa'
        rfl
    | succ i' =>
      simp only [List.get?] at ha hb
      simp only [walkStreaksAux, List.get?]
      exact ih _ _ i' a b sa ha hb (by simpa [walkStreaksAux] using hsa)

/-- C5: streak recomputation walks each user's rows in canonical week order
independently of other users; consecutive rows with the same activity level
increment the streak and a level change resets it to 1.  First conjunct:
the first walked row always gets streak 1.  Second conjunct: the step law.
Third conjunct: a user `A` with levels `[Low, Low, Medium, Medium, Medium]`
across 5 stored weeks gets streaks `[1, 2, 1, 2, 3]`, with another user `B`
interleaved in the same table and walked independently. -/
theorem streak_recompute_walk :
    (∀ (rows : List (Nat × HistoricalRow)) (a : Nat × HistoricalRow),
        rows.get? 0 = some a → (walkStreaks rows).get? 0 = some (a.1, 1)) ∧
    (∀ (rows : List (Nat × HistoricalRow)) (i : Nat) (a b : Nat × HistoricalRow)
        (sa : Nat × Int),
        rows.get? i = some a → rows.get? (i + 1) = some b →
        (walkStreaks rows).get? i = some sa →
        (walkStreaks rows).get? (i + 1) =
          some (b.1, if b.2.activityLevel = a.2.activityLevel then sa.2 + 1 else 1)) ∧
    recomputeStreaks
        [⟨"w1", "A", 0, "Low", 0⟩, ⟨"w1", "B", 0, "High", 0⟩, ⟨"w2", "A", 0, "Low", 0⟩,
         ⟨"w2", "B", 0, "Low", 0⟩, ⟨"w3", "A", 0, "Medium", 0⟩, ⟨"w4", "A", 0, "Medium", 0⟩,
         ⟨"w5", "A", 0, "Medium", 0⟩]
        ["w1", "w2", "w3", "w4", "w5"] =
      [⟨"w1", "A", 0, "Low", 1⟩, ⟨"w1", "B", 0, "High", 1⟩, ⟨"w2", "A", 0, "Low", 2⟩,
       ⟨"w2", "B", 0, "Low", 1⟩, ⟨"w3", "A", 0, "Medium", 1⟩, ⟨"w4", "A", 0, "Medium", 2⟩,
       ⟨"w5", "A", 0, "Medium", 3⟩] := by
  refine ⟨?_, ?_, by decide⟩
  · intro rows a ha
    cases rows with
    | nil => simp at ha
    | cons head t =>
      obtain rfl : head = a := by injection ha
      simp only [walkStreaks, walkStreaksAux, List.get?]
      split <;> rfl
  · intro rows i a b sa ha hb hsa
    exact walkStreaksAux_step rows 0 "" i a b sa ha hb hsa

/-- Witness for C5 at a concrete two-row input: the second row of a
same-level pair gets streak 2 = 1 + 1. -/
theorem streak_recompute_walk_witness :
    (walkStreaks [(0, ⟨"w1", "A", 0, "Low", 0⟩), (1, ⟨"w2", "A", 0, "Low", 0⟩)]).get? 1 =
      some (1, if ("Low" : String) = "Low" then (1 : Int) + 1 else 1) :=
  streak_recompute_walk.2.1 [(0, ⟨"w1", "A", 0, "Low", 0⟩), (1, ⟨"w2", "A", 0, "Low", 0⟩)]
    0 (0, ⟨"w1", "A", 0, "Low", 0⟩) (1, ⟨"w2", "A", 0, "Low", 0⟩) (0, 1)
    (by decide) (by decide) (by decide)

/-- C6: after merge/windowing each logical entry is parsed and filtered.
First conjunct: a parsed line is kept exactly when it either has no resolved
timestamp but a non-empty issue list, or its timestamp lies inside the week
window (so no-timestamp/no-issue lines and out-of-window lines are the only
discards).  Second conjunct: the window of `weekBoundsFromUtcSunday` is
start-of-day to 1 ms before the 7th following midnight (6 days, end of day).
Third conjunct: a valid timestamp one second after the window's end is
excluded.  Fourth conjunct: the output of the parse-and-window loop is
exactly the kept parses of the entries. -/
theorem window_filter_retention :
    (∀ (bounds : WeekBounds) (p : ParsedLine),
        keepLineForWindow bounds p = true ↔
          ((p.timestampUtcMillis = none ∧ p.issues ≠ []) ∨
            ∃ t, p.timestampUtcMillis = some t ∧
              bounds.startUtcMillis ≤ t ∧ t ≤ bounds.endUtcMillis)) ∧
    (∀ d : Int, (weekBoundsFromUtcSunday d).endUtcMillis =
        (weekBoundsFromUtcSunday d).startUtcMillis + 7 * msPerDay - 1) ∧
    (∀ (d : Int) (p : ParsedLine) (t : Int),
        p.timestampUtcMillis = some t →
        t = (weekBoundsFromUtcSunday d).endUtcMillis + 1000 →
        keepLineForWindow (weekBoundsFromUtcSunday d) p = false) ∧
    (∀ (env : JsEnv) (timezone : String) (lookup : ParserLookup) (bounds : WeekBounds)
        (entries : List (Nat × String)) (p : ParsedLine),
        p ∈ parseAndWindowEntries env timezone lookup bounds entries ↔
          ∃ e ∈ entries, p = parseLine env e.2 e.1 timezone lookup ∧
            keepLineForWindow bounds p = true) := by
  refine ⟨?_, ?_, ?_, ?_⟩
  · intro bounds p
    cases h : p.timestampUtcMillis with
    | none => simp [keepLineForWindow, h, List.isEmpty_iff]
    | some t => simp [keepLineForWindow, h]
  · intro d
    simp only [weekBoundsFromUtcSunday, msPerDay]
    ring
  · intro d p t hts hafter
    simp only [keepLineForWindow, hts, weekBoundsFromUtcSunday, msPerDay] at hafter ⊢
    simp only [Bool.not_eq_false', Bool.or_eq_true, decide_eq_true_eq]
    omega
  · intro env timezone lookup bounds entries p
    simp only [parseAndWindowEntries, List.mem_filter, List.mem_map]
    constructor
    · rintro ⟨⟨e, he, rfl⟩, hkeep⟩
      exact ⟨e, he, rfl, hkeep⟩
    · rintro ⟨e, he, rfl, hkeep⟩
      exact ⟨⟨e, he, rfl⟩, hkeep⟩

/-- Witness for C6: a line stamped one second after the end of the epoch
week (day 0) is excluded. -/
theorem window_filter_retention_witness :
    keepLineForWindow (weekBoundsFromUtcSunday 0)
      { initParsedLine "x" 1 with timestampUtcMillis := some 604800999 } = false :=
  window_filter_retention.2.2.1 0
    { initParsedLine "x" 1 with timestampUtcMillis := some 604800999 }
    604800999 rfl (by decide)

/-- C7: alternate-dialect boss inference.  First conjunct: on tokens
`["Bob", "Smith", "Hydra", "Alice"]` with boss `Hydra` and user `Alice` the
parser selects index 2, author `"Bob Smith"` and `addNames = ["Alice"]`
(here no candidate precedes the inferred name-tail start, so this exercises
the fallback to the last candidate overall).  Second conjunct: when a
candidate before the name-tail start exists it is preferred over a later
candidate inside the tail (`["Hydra", "5", "Alice"]` with `Alice` also a
boss: index 1, not 2).  Third conjunct: with no boss candidate at all the
parser emits `UnsupportedFormat` and stops, extracting no boss and no
names. -/
theorem alternate_dialect_boss_inference :
    (chooseBossIndexForNewFormat ["Bob", "Smith", "Hydra", "Alice"] sampleLookup = 2 ∧
      (parseNewFormatLine sampleEnvOld (initParsedLine "raw" 1) "UTC" sampleLookup
          ("15 Jan 2024 at 10:00", "Bob Smith Hydra Alice")).author = some "Bob Smith" ∧
      (parseNewFormatLine sampleEnvOld (initParsedLine "raw" 1) "UTC" sampleLookup
          ("15 Jan 2024 at 10:00", "Bob Smith Hydra Alice")).bossRaw = some "Hydra" ∧
      (parseNewFormatLine sampleEnvOld (initParsedLine "raw" 1) "UTC" sampleLookup
          ("15 Jan 2024 at 10:00", "Bob Smith Hydra Alice")).bossCanonical = some "Hydra" ∧
      (parseNewFormatLine sampleEnvOld (initParsedLine "raw" 1) "UTC" sampleLookup
          ("15 Jan 2024 at 10:00", "Bob Smith Hydra Alice")).addNames = ["Alice"] ∧
      (parseNewFormatLine sampleEnvOld (initParsedLine "raw" 1) "UTC" sampleLookup
          ("15 Jan 2024 at 10:00", "Bob Smith Hydra Alice")).subtractNames = []) ∧
    chooseBossIndexForNewFormat ["Hydra", "5", "Alice"] sampleLookupBossAlice = 1 ∧
    (∀ (env : JsEnv) (timezone : String) (lookup : ParserLookup)
        (capture : String × String) (raw : String) (n : Nat),
        splitWords (jsTrim capture.2) ≠ [] →
        (∀ w ∈ splitWords (jsTrim capture.2), isBossCandidateToken w lookup = false) →
        ({ type := .UnsupportedFormat,
           message := "Unable to determine boss token in alternate format." } : ParseIssue)
            ∈ (parseNewFormatLine env (initParsedLine raw n) timezone lookup capture).issues ∧
        (parseNewFormatLine env (initParsedLine raw n) timezone lookup capture).bossRaw = none ∧
        (parseNewFormatLine env (initParsedLine raw n) timezone lookup capture).bossCanonical =
            none ∧
        (parseNewFormatLine env (initParsedLine raw n) timezone lookup capture).author = none ∧
        (parseNewFormatLine env (initParsedLine raw n) timezone lookup capture).addNames = [] ∧
        (parseNewFormatLine env (initParsedLine raw n) timezone lookup capture).subtractNames =
            []) := by
  refine ⟨⟨by decide, by decide, by decide, by decide, by decide, by decide⟩, by decide, ?_⟩
  intro env timezone lookup capture raw n hwords hcand
  have hcands : bossCandidateIndexes (splitWords (jsTrim capture.2)) lookup = [] := by
    simp only [bossCandidateIndexes]
    rw [show (splitWords (jsTrim capture.2)).enum.filter
          (fun entry => isBossCandidateToken entry.2 lookup) = [] from ?_]
    · rfl
    · rw [List.filter_eq_nil_iff]
      intro e he
      simp [hcand e.2 (mem_of_mem_enumFrom he)]
  have hidx : chooseBossIndexForNewFormat (splitWords (jsTrim capture.2)) lookup =
      Int.negSucc 0 := by
    simp [chooseBossIndexForNewFormat, hcands]
  have hw : (splitWords (jsTrim capture.2)).isEmpty = false := by
    cases hcase : splitWords (jsTrim capture.2) with
    | nil => exact absurd hcase hwords
    | cons w ws => rfl
  cases hts : parseTimestampToUtcMillis env (jsTrim capture.1) timezone NEW_TIMESTAMP_FORMATS with
  | none =>
    simp only [parseNewFormatLine]
    rw [hidx]
    simp [hw, hts, initParsedLine]
  | some millis =>
    simp only [parseNewFormatLine]
    rw [hidx]
    simp [hw, hts, initParsedLine]

/-- Witness for C7's no-candidate conjunct: a payload of two unknown
non-boss-like words yields the `UnsupportedFormat` stop. -/
theorem alternate_dialect_boss_inference_witness :
    ({ type := .UnsupportedFormat,
       message := "Unable to determine boss token in alternate format." } : ParseIssue)
        ∈ (parseNewFormatLine sampleEnvNone (initParsedLine "x" 1) "UTC" sampleLookup
            ("ts", "mystery words")).issues ∧
    (parseNewFormatLine sampleEnvNone (initParsedLine "x" 1) "UTC" sampleLookup
        ("ts", "mystery words")).bossRaw = none ∧
    (parseNewFormatLine sampleEnvNone (initParsedLine "x" 1) "UTC" sampleLookup
        ("ts", "mystery words")).bossCanonical = none ∧
    (parseNewFormatLine sampleEnvNone (initParsedLine "x" 1) "UTC" sampleLookup
        ("ts", "mystery words")).author = none ∧
    (parseNewFormatLine sampleEnvNone (initParsedLine "x" 1) "UTC" sampleLookup
        ("ts", "mystery words")).addNames = [] ∧
    (parseNewFormatLine sampleEnvNone (initParsedLine "x" 1) "UTC" sampleLookup
        ("ts", "mystery words")).subtractNames = [] :=
  alternate_dialect_boss_inference.2.2 sampleEnvNone "UTC" sampleLookup ("ts", "mystery words")
    "x" 1 (by decide) (by decide)

/-- C8: on a legacy-dialect line the text after the timestamp is split on
the first remaining `:` into author and payload; when that separator is
absent `parseLine` attaches `UnsupportedFormat` and stops: no author, no
boss token and no add/subtract names are extracted.  The second conjunct
states the split itself: with the separator at index `i` the author is the
trimmed text before it. -/
theorem legacy_missing_second_colon :
    (∀ (env : JsEnv) (raw : String) (n : Nat) (timezone : String)
        (lookup : ParserLookup) (capture : String × String),
        env.oldMatch raw = some capture →
        charIndexOf ':' capture.2 = none →
        ({ type := .UnsupportedFormat,
           message := "Missing second \x27:\x27 separator for author and payload." } : ParseIssue)
            ∈ (parseLine env raw n timezone lookup).issues ∧
        (parseLine env raw n timezone lookup).author = none ∧
        (parseLine env raw n timezone lookup).bossRaw = none ∧
        (parseLine env raw n timezone lookup).bossCanonical = none ∧
        (parseLine env raw n timezone lookup).addNames = [] ∧
        (parseLine env raw n timezone lookup).subtractNames = []) ∧
    (∀ (env : JsEnv) (raw : String) (n : Nat) (timezone : String)
        (lookup : ParserLookup) (capture : String × String) (i : Nat),
        env.oldMatch raw = some capture →
        charIndexOf ':' capture.2 = some i →
        (parseLine env raw n timezone lookup).author =
          some (jsTrim (sliceTo capture.2 i))) := by
  constructor
  · intro env raw n timezone lookup capture hmatch hcolon
    simp only [parseLine]
    rw [hmatch]
    simp only [parseOldFormatLine]
    rw [hcolon]
    cases hts : parseTimestampToUtcMillis env capture.1 timezone OLD_TIMESTAMP_FORMATS with
    | none => simp [hts, initParsedLine]
    | some millis => simp [hts, initParsedLine]
  · intro env raw n timezone lookup capture i hmatch hcolon
    simp only [parseLine]
    rw [hmatch]
    simp only [parseOldFormatLine]
    rw [hcolon]
    cases hts : parseTimestampToUtcMillis env capture.1 timezone OLD_TIMESTAMP_FORMATS with
    | none =>
      simp only [hts]
      cases hwords : splitWords (jsTrim (sliceFrom capture.2 (i + 1))) with
      | nil => simp [hwords, initParsedLine]
      | cons bossToken nameTokens =>
        simp only [hwords]
        exact (applyBossAndNames_fields _ bossToken nameTokens lookup).1
    | some millis =>
      simp only [hts]
      cases hwords : splitWords (jsTrim (sliceFrom capture.2 (i + 1))) with
      | nil => simp [hwords, initParsedLine]
      | cons bossToken nameTokens =>
        simp only [hwords]
        exact (applyBossAndNames_fields _ bossToken nameTokens lookup).1

/-- Witness for C8 at a concrete legacy line with no second colon. -/
theorem legacy_missing_second_colon_witness :
    ({ type := .UnsupportedFormat,
       message := "Missing second \x27:\x27 separator for author and payload." } : ParseIssue)
        ∈ (parseLine
            { oldMatch := fun _ => some ("ts", "no separator here"),
              newMatch := fun _ => none, fromFormat := fun _ _ _ => none }
            "ts no separator here" 1 "UTC" sampleLookup).issues ∧
    (parseLine
        { oldMatch := fun _ => some ("ts", "no separator here"),
          newMatch := fun _ => none, fromFormat := fun _ _ _ => none }
        "ts no separator here" 1 "UTC" sampleLookup).author = none ∧
    (parseLine
        { oldMatch := fun _ => some ("ts", "no separator here"),
          newMatch := fun _ => none, fromFormat := fun _ _ _ => none }
        "ts no separator here" 1 "UTC" sampleLookup).bossRaw = none ∧
    (parseLine
        { oldMatch := fun _ => some ("ts", "no separator here"),
          newMatch := fun _ => none, fromFormat := fun _ _ _ => none }
        "ts no separator here" 1 "UTC" sampleLookup).bossCanonical = none ∧
    (parseLine
        { oldMatch := fun _ => some ("ts", "no separator here"),
          newMatch := fun _ => none, fromFormat := fun _ _ _ => none }
        "ts no separator here" 1 "UTC" sampleLookup).addNames = [] ∧
    (parseLine
        { oldMatch := fun _ => some ("ts", "no separator here"),
          newMatch := fun _ => none, fromFormat := fun _ _ _ => none }
        "ts no separator here" 1 "UTC" sampleLookup).subtractNames = [] :=
  legacy_missing_second_colon.1
    { oldMatch := fun _ => some ("ts", "no separator here"),
      newMatch := fun _ => none, fromFormat := fun _ _ _ => none }
    "ts no separator here" 1 "UTC" sampleLookup ("ts", "no separator here") rfl (by decide)

/-- C9: `parseLine` is deterministic.  The source function reads no clock
and uses no randomness: its only external calls are the two regex matches
and the luxon format parses, which are explicit inputs (`JsEnv`) of the
embedding, so the function is pure and repeated invocations on the same
inputs return identical `ParsedLine` records. -/
theorem parseLine_deterministic :
    ∀ (env : JsEnv) (rawText : String) (lineNumber : Nat) (timezone : String)
      (lookup : ParserLookup),
      parseLine env rawText lineNumber timezone lookup =
        parseLine env rawText lineNumber timezone lookup :=
  fun _ _ _ _ _ => rfl

/-- A line with no resolved timestamp is always kept by the window filter
once it carries at least one issue. -/
theorem keep_of_ts_none (r : ParsedLine) (bounds : WeekBounds)
    (hts : r.timestampUtcMillis = none) (hne : r.issues ≠ []) :
    keepLineForWindow bounds r = true := by
  simp only [keepLineForWindow, hts, Bool.not_eq_true', List.isEmpty_eq_false]
  exact hne

/-- In the legacy branch, a failed timestamp parse always leaves an
`InvalidTimestamp` issue on the final record whenever the final record has
no timestamp. -/
theorem parseOldFormatLine_invalid (env : JsEnv) (timezone : String)
    (lookup : ParserLookup) (capture : String × String) (raw : String) (n : Nat)
    (hts : (parseOldFormatLine env (initParsedLine raw n) timezone lookup
        capture).timestampUtcMillis = none) :
    ∃ issue ∈ (parseOldFormatLine env (initParsedLine raw n) timezone lookup capture).issues,
      issue.type = ParseIssueType.InvalidTimestamp := by
  revert hts
  simp only [parseOldFormatLine]
  cases htsp : parseTimestampToUtcMillis env capture.1 timezone OLD_TIMESTAMP_FORMATS with
  | some millis =>
    intro hts
    exfalso
    revert hts
    cases hcolon : charIndexOf ':' capture.2 with
    | none => simp [hcolon, initParsedLine]
    | some i =>
      cases hwords : splitWords (jsTrim (sliceFrom capture.2 (i + 1))) with
      | nil => simp [hcolon, hwords, initParsedLine]
      | cons bossToken nameTokens =>
        simp only [hcolon, hwords]
        rw [(applyBossAndNames_fields _ bossToken nameTokens lookup).2.1]
        simp [initParsedLine]
  | none =>
    intro _
    cases hcolon : charIndexOf ':' capture.2 with
    | none =>
      refine ⟨{ type := .InvalidTimestamp,
                message := "Unable to parse timestamp with timezone " ++ timezone ++ "." },
              ?_, rfl⟩
      simp [hcolon, initParsedLine]
    | some i =>
      cases hwords : splitWords (jsTrim (sliceFrom capture.2 (i + 1))) with
      | nil =>
        refine ⟨{ type := .InvalidTimestamp,
                  message := "Unable to parse timestamp with timezone " ++ timezone ++ "." },
                ?_, rfl⟩
        simp [hcolon, hwords, initParsedLine]
      | cons bossToken nameTokens =>
        refine ⟨{ type := .InvalidTimestamp,
                  message := "Unable to parse timestamp with timezone " ++ timezone ++ "." },
                ?_, rfl⟩
        simp only [hcolon, hwords]
        obtain ⟨_, _, extra, hiss⟩ := applyBossAndNames_fields
          { initParsedLine raw n with
              timestampRaw := some capture.1
              issues := (initParsedLine raw n).issues ++
                [{ type := .InvalidTimestamp,
                   message := "Unable to parse timestamp with timezone " ++ timezone ++ "." }]
              author := some (jsTrim (sliceTo capture.2 i)) }
          bossToken nameTokens lookup
        rw [hiss]
        simp [initParsedLine]

/-- In the alternate branch, a failed timestamp parse always leaves an
`InvalidTimestamp` issue on the final record whenever the final record has
no timestamp. -/
theorem parseNewFormatLine_invalid (env : JsEnv) (timezone : String)
    (lookup : ParserLookup) (capture : String × String) (raw : String) (n : Nat)
    (hts : (parseNewFormatLine env (initParsedLine raw n) timezone lookup
        capture).timestampUtcMillis = none) :
    ∃ issue ∈ (parseNewFormatLine env (initParsedLine raw n) timezone lookup capture).issues,
      issue.type = ParseIssueType.InvalidTimestamp := by
  revert hts
  simp only [parseNewFormatLine]
  cases htsp : parseTimestampToUtcMillis env (jsTrim capture.1) timezone NEW_TIMESTAMP_FORMATS with
  | some millis =>
    intro hts
    exfalso
    revert hts
    by_cases hw : (splitWords (jsTrim capture.2)).isEmpty
    · simp [hw, initParsedLine]
    · simp only [hw, Bool.false_eq_true, if_false]
      cases hidx : chooseBossIndexForNewFormat (splitWords (jsTrim capture.2)) lookup with
      | negSucc k => simp [initParsedLine]
      | ofNat bossIndex =>
        rw [(applyBossAndNames_fields _ _ _ lookup).2.1]
        simp [initParsedLine]
  | none =>
    intro _
    by_cases hw : (splitWords (jsTrim capture.2)).isEmpty
    · refine ⟨{ type := .InvalidTimestamp,
                message := "Unable to parse timestamp with timezone " ++ timezone ++ "." },
              ?_, rfl⟩
      simp [hw, initParsedLine]
    · simp only [hw, Bool.false_eq_true, if_false]
      cases hidx : chooseBossIndexForNewFormat (splitWords (jsTrim capture.2)) lookup with
      | negSucc k =>
        refine ⟨{ type := .InvalidTimestamp,
                  message := "Unable to parse timestamp with timezone " ++ timezone ++ "." },
                ?_, rfl⟩
        simp [initParsedLine]
      | ofNat bossIndex =>
        obtain ⟨_, _, extra, hiss⟩ := applyBossAndNames_fields
          { initParsedLine raw n with
              timestampRaw := some (jsTrim capture.1)
              issues := (initParsedLine raw n).issues ++
                [{ type := .InvalidTimestamp,
                   message := "Unable to parse timestamp with timezone " ++ timezone ++ "." }]
              author := some (jsTrim (joinWithSpace
                ((splitWords (jsTrim capture.2)).take bossIndex))) }
          (((splitWords (jsTrim capture.2)).drop bossIndex).headD "")
          ((splitWords (jsTrim capture.2)).drop (bossIndex + 1)) lookup
        refine ⟨{ type := .InvalidTimestamp,
                  message := "Unable to parse timestamp with timezone " ++ timezone ++ "." },
                ?_, rfl⟩
        rw [hiss]
        simp [initParsedLine]

/-- C10: a `ParsedLine` returned by `parseLine` with no resolved timestamp
always carries at least one issue (`InvalidTimestamp` when a dialect
matched, `UnsupportedFormat` when neither matched), so the merge/windowing
branch that silently discards no-timestamp/no-issue lines is never taken on
parser output. -/
theorem no_timestamp_implies_issue :
    ∀ (env : JsEnv) (rawText : String) (lineNumber : Nat) (timezone : String)
      (lookup : ParserLookup),
      (parseLine env rawText lineNumber timezone lookup).timestampUtcMillis = none →
      (∃ issue ∈ (parseLine env rawText lineNumber timezone lookup).issues,
          issue.type = ParseIssueType.InvalidTimestamp ∨
          issue.type = ParseIssueType.UnsupportedFormat) ∧
      ∀ bounds : WeekBounds,
        keepLineForWindow bounds (parseLine env rawText lineNumber timezone lookup) = true := by
  intro env rawText lineNumber timezone lookup hts
  have hmain : ∃ issue ∈ (parseLine env rawText lineNumber timezone lookup).issues,
      issue.type = ParseIssueType.InvalidTimestamp ∨
      issue.type = ParseIssueType.UnsupportedFormat := by
    simp only [parseLine] at hts ⊢
    cases hold : env.oldMatch rawText with
    | some capture =>
      rw [hold] at hts
      obtain ⟨issue, hmem, htype⟩ :=
        parseOldFormatLine_invalid env timezone lookup capture rawText lineNumber hts
      exact ⟨issue, hmem, Or.inl htype⟩
    | none =>
      cases hnew : env.newMatch rawText with
      | some capture =>
        rw [hold, hnew] at hts
        obtain ⟨issue, hmem, htype⟩ :=
          parseNewFormatLine_invalid env timezone lookup capture rawText lineNumber hts
        exact ⟨issue, hmem, Or.inl htype⟩
      | none =>
        refine ⟨{ type := .UnsupportedFormat,
                  message := "Line does not match supported old or alternate BAND export formats." },
                ?_, Or.inr rfl⟩
        simp [initParsedLine]
  refine ⟨hmain, ?_⟩
  intro bounds
  apply keep_of_ts_none _ _ hts
  obtain ⟨issue, hmem, _⟩ := hmain
  intro hnil
  rw [hnil] at hmem
  simp at hmem

/-- Witness for C10: a line matching neither dialect has no timestamp, an
`UnsupportedFormat` issue, and is kept by any window filter. -/
theorem no_timestamp_implies_issue_witness :
    (∃ issue ∈ (parseLine sampleEnvNone "garbage" 1 "UTC" sampleLookup).issues,
        issue.type = ParseIssueType.InvalidTimestamp ∨
        issue.type = ParseIssueType.UnsupportedFormat) ∧
    ∀ bounds : WeekBounds,
      keepLineForWindow bounds (parseLine sampleEnvNone "garbage" 1 "UTC" sampleLookup) = true :=
  no_timestamp_implies_issue sampleEnvNone "garbage" 1 "UTC" sampleLookup rfl

end KPWeb
